import Mathlib

/-!
# Verification of the apidoc sanitizer, codec scalars and block extractor

Shallow embedding of the Go sources of `github.com/caixw/apidoc` (this
repository).  The embedded functions follow the source files:

* `internal/ast` sanitize code (the file stored as `scripts/build.cmd`
  after its leading build script): `API.Sanitize`, `Enum.Sanitize`,
  `Path.Sanitize`, `parsePath`, `Request.Sanitize`, `Param.Sanitize`,
  `chkEnumsType`, `getDuplicateEnum`, `getDuplicateItems`, `checkXML`,
  `APIDoc.Sanitize`, `APIDoc.tagExists`, `APIDoc.serverExists`,
  `API.sanitizeTags`;
* `internal/token` codec scalars (`intTag`/`stringTag` Decode/Encode);
* `internal/lang` `rubyMultipleComment.BeginFunc`/`EndFunc`;
* `doc/enum.go` `Enum.UnmarshalXML`.

Go `error` results are modelled as `Option SError` (`none` = `nil`),
Go slices as `List`, Go string comparison via Lean's `String` order.
Struct fields that none of the verified functions touch are omitted.
-/

namespace Apidoc

/-- `core.Position`: a source position (line, character).  The byte offset
carried by the Go struct is never read by the verified code and is
omitted. -/
structure Pos where
  line : Nat
  character : Nat
  deriving DecidableEq, Repr

/-- `core.Range`: a start/end pair of positions. -/
structure Range where
  start : Pos
  stop : Pos
  deriving DecidableEq, Repr

/-- `token.String`: a position-tagged string (`Start`, `End`, `Value`). -/
structure CoreStr where
  range : Range
  value : String
  deriving DecidableEq, Repr

/-- `token.Attribute` (also the shape of `ast.TypeAttribute`,
`ast.MethodAttribute`, …): an XML attribute together with its source
range, its name token and its value token.  Go's `==` on (pointers to)
such values compares the whole record, positions included — never just
the value string; `DecidableEq` gives the same equality here. -/
structure Attribute where
  range : Range
  xmlName : CoreStr
  value : CoreStr
  deriving DecidableEq, Repr

/-- `Attribute.V()`: the raw string value. -/
def Attribute.V (a : Attribute) : String := a.value.value

/-- `ast.BoolAttribute`: like `Attribute` but with a parsed boolean value. -/
structure BoolAttr where
  range : Range
  xmlName : CoreStr
  value : Bool
  deriving DecidableEq, Repr

/-- `BoolAttribute.V()`. -/
def BoolAttr.V (a : BoolAttr) : Bool := a.value

/-- The `locale` message keys used by the sanitizer. -/
inductive MsgKey where
  | errRequired
  | errInvalidFormat
  | errInvalidValue
  | errDuplicateValue
  | errPathNotMatchParams
  deriving DecidableEq, Repr

/-- `core.SyntaxError` as produced by `token.Parser.NewError(start, end,
field, key)`: the offending range, the field name and the message key. -/
structure SError where
  range : Range
  field : String
  key : MsgKey
  deriving DecidableEq, Repr

/-- `p.NewError(start, end, field, key)`. -/
def newError (s e : Pos) (f : String) (k : MsgKey) : SError :=
  ⟨⟨s, e⟩, f, k⟩

/-- The `ast` type-name constants (`TypeNone`, `TypeBool`, `TypeObject`,
`TypeNumber`, `TypeString` are plain strings in the source). -/
def TypeNone : String := ""

def TypeBool : String := "bool"

def TypeObject : String := "object"

def TypeNumber : String := "number"

def TypeString : String := "string"

/-- `ast.XML`: the XML-shape hints of a parameter. -/
structure XML where
  xmlAttr : BoolAttr
  xmlExtract : BoolAttr
  xmlNS : Attribute
  xmlNSPfx : Attribute
  xmlWrapped : Attribute
  deriving DecidableEq, Repr

/-- `ast.Enum`: an enum value attached to a typed field.  Only the fields
read by `chkEnumsType` / `getDuplicateEnum` are kept (range, element
name, `Value` attribute). -/
structure AEnum where
  range : Range
  xmlName : CoreStr
  value : Attribute
  deriving DecidableEq, Repr

/-- `ast.Param`: a (possibly nested) parameter definition.  Recursive in
`items`. -/
inductive Param where
  | mk (range : Range) (name : Attribute) (ptype : Attribute)
      (summary : Attribute) (description : Attribute) (array : BoolAttr)
      (items : List Param) (enums : List AEnum) (xml : XML)

def Param.range : Param → Range
  | .mk r _ _ _ _ _ _ _ _ => r

def Param.name : Param → Attribute
  | .mk _ n _ _ _ _ _ _ _ => n

def Param.ptype : Param → Attribute
  | .mk _ _ t _ _ _ _ _ _ => t

def Param.summary : Param → Attribute
  | .mk _ _ _ s _ _ _ _ _ => s

def Param.description : Param → Attribute
  | .mk _ _ _ _ d _ _ _ _ => d

def Param.array : Param → BoolAttr
  | .mk _ _ _ _ _ a _ _ _ => a

def Param.items : Param → List Param
  | .mk _ _ _ _ _ _ i _ _ => i

def Param.enums : Param → List AEnum
  | .mk _ _ _ _ _ _ _ e _ => e

def Param.xml : Param → XML
  | .mk _ _ _ _ _ _ _ _ x => x

/-- `ast.Example`: only its mimetype attribute is read by the sanitizer. -/
structure Example where
  mimetype : Attribute
  deriving DecidableEq, Repr

/-- `ast.Request`: a request/response body. -/
structure Request where
  range : Range
  rtype : Attribute
  items : List Param
  enums : List AEnum
  array : BoolAttr
  xml : XML
  mimetype : Attribute
  examples : List Example
  headers : List Param

/-- `ast.Path`: the path element of an API. -/
structure APath where
  range : Range
  path : Attribute
  params : List Param
  queries : List Param

/-- An `ast` element whose `Content` carries a referenced tag/server name
(the shape of the elements in `API.Tags` / `API.Servers`). -/
structure TagRef where
  content : CoreStr
  deriving DecidableEq, Repr

/-- `ast.API`: one API of the document.  Fields read by the sanitizer. -/
structure API where
  range : Range
  method : Attribute
  path : APath
  tags : List TagRef
  servers : List TagRef
  headers : List Param

/-- `ast.Tag`: a tag declared at document scope. -/
structure DocTag where
  name : Attribute
  deriving DecidableEq, Repr

/-- `ast.Server`: a server declared at document scope. -/
structure DocServer where
  name : Attribute
  deriving DecidableEq, Repr

/-- `ast.APIDoc`: the assembled document (fields read by `Sanitize`). -/
structure APIDoc where
  apis : List API
  tags : List DocTag
  servers : List DocServer

/-! ## checkXML (sanitize.go) -/

/-- `checkXML(isArray, hasItems bool, xml *XML, p *token.Parser)`:
the XML-shape consistency check, translated branch for branch. -/
def checkXML (isArray hasItems : Bool) (xml : XML) : Option SError :=
  if xml.xmlAttr.V then
    if isArray || hasItems then
      some (newError xml.xmlAttr.range.start xml.xmlAttr.range.stop xml.xmlAttr.xmlName.value .errInvalidValue)
    else if xml.xmlWrapped.V ≠ "" then
      some (newError xml.xmlWrapped.range.start xml.xmlWrapped.range.stop xml.xmlWrapped.xmlName.value .errInvalidValue)
    else if xml.xmlExtract.V then
      some (newError xml.xmlExtract.range.start xml.xmlExtract.range.stop xml.xmlExtract.xmlName.value .errInvalidValue)
    else if xml.xmlNS.V ≠ "" then
      some (newError xml.xmlNS.range.start xml.xmlNS.range.stop xml.xmlNS.xmlName.value .errInvalidValue)
    else if xml.xmlNSPfx.V ≠ "" then
      some (newError xml.xmlNSPfx.range.start xml.xmlNSPfx.range.stop xml.xmlNSPfx.xmlName.value .errInvalidValue)
    else
      checkXMLRest isArray xml
  else
    checkXMLRest isArray xml
where
  /-- The part of `checkXML` after the `xml.XMLAttr.V()` block. -/
  checkXMLRest (isArray : Bool) (xml : XML) : Option SError :=
    if xml.xmlWrapped.V ≠ "" && !isArray then
      some (newError xml.xmlWrapped.range.start xml.xmlWrapped.range.stop xml.xmlWrapped.xmlName.value .errInvalidValue)
    else if xml.xmlExtract.V && xml.xmlNS.V ≠ "" then
      some (newError xml.xmlNS.range.start xml.xmlNS.range.stop xml.xmlNS.xmlName.value .errInvalidValue)
    else if xml.xmlExtract.V && xml.xmlNSPfx.V ≠ "" then
      some (newError xml.xmlNSPfx.range.start xml.xmlNSPfx.range.stop xml.xmlNSPfx.xmlName.value .errInvalidValue)
    else if xml.xmlNS.V ≠ "" && xml.xmlNSPfx.V = "" then
      some (newError xml.xmlNSPfx.range.start xml.xmlNSPfx.range.stop xml.xmlNSPfx.xmlName.value .errInvalidValue)
    else
      none

/-! ## External scalar predicates

`chkEnumsType` calls `is.Number` (library `github.com/issue9/is`) and
`strconv.ParseBool` (Go standard library). -/

/-- Decimal digit test (`'0'..'9'`). -/
def isDigitCh (c : Char) : Bool := 48 ≤ c.toNat && c.toNat ≤ 57

/-- Model of the external `is.Number` predicate on strings: an optional
sign, a non-empty run of decimal digits and an optional `.`-separated
non-empty fractional part.  The library delegates to Go's numeric
parser; only this decimal fragment is exercised by the claims. -/
def isNumber (s : String) : Bool :=
  let cs := match s.data with
    | c :: rest => if c = '+' || c = '-' then rest else c :: rest
    | [] => []
  let ip := cs.takeWhile isDigitCh
  let rest := cs.dropWhile isDigitCh
  (!ip.isEmpty) &&
    (rest.isEmpty ||
      (rest.head? = some '.' && !rest.tail.isEmpty && rest.tail.all isDigitCh))

/-- `strconv.ParseBool`: accepts exactly `1 t T TRUE true True` (true)
and `0 f F FALSE false False` (false); everything else is an error. -/
def goParseBool (s : String) : Option Bool :=
  if s = "1" ∨ s = "t" ∨ s = "T" ∨ s = "TRUE" ∨ s = "true" ∨ s = "True" then some true
  else if s = "0" ∨ s = "f" ∨ s = "F" ∨ s = "FALSE" ∨ s = "false" ∨ s = "False" then some false
  else none

/-! ## Stable sorting (`sort.SliceStable`)

`sort.SliceStable(es, less)` sorts while keeping the original relative
order of elements that compare equal.  We model it by a stable insertion
sort: each element is inserted into the sorted tail of its successors,
skipping exactly the elements that are strictly `less` than it, so it
lands in front of the first element it ties with that originally came
after it. -/

/-- Insert `x` into `l` (sorted): walk past every `y` with `less y x`. -/
def sortInsert {α : Type} (less : α → α → Bool) (x : α) : List α → List α
  | [] => [x]
  | y :: l => if less y x then y :: sortInsert less x l else x :: y :: l

/-- Stable sort by `less` (model of `sort.SliceStable`). -/
def stableSort {α : Type} (less : α → α → Bool) : List α → List α
  | [] => []
  | x :: l => sortInsert less x (stableSort less l)

/-- Go's `<` on strings (bytewise lexicographic).  Stated on the
character data — equivalent to Lean's `String` order
(`String.lt_iff_toList_lt`) but evaluable on concrete strings. -/
def goStrLt (a b : String) : Bool := decide (a.data < b.data)

/-- The comparison closure of `getDuplicateEnum` / `getDuplicateItems`:
`less(i, j) = key(es[i]) > key(es[j])` (descending by key string). -/
def lessDesc {α : Type} (k : α → String) (a b : α) : Bool := goStrLt (k b) (k a)

/-- The adjacent-pair scan (`for i := 1; …; if es[i] = es[i-1] return
es[i]`): returns the second element of the first adjacent pair with
equal keys. -/
def findAdjDup {α : Type} (k : α → String) : List α → Option α
  | a :: b :: l => if k a = k b then some b else findAdjDup k (b :: l)
  | _ => none

/-- Common body of `getDuplicateEnum` and `getDuplicateItems`: copy the
slice, `sort.SliceStable` descending by key, scan adjacent pairs. -/
def getDupBy {α : Type} (k : α → String) (l : List α) : Option α :=
  findAdjDup k (stableSort (lessDesc k) l)

/-- `getDuplicateEnum(enums []*Enum) (core.Range, bool)`: the key is
`Enum.Value.V()` and on a hit `es[i].Range` is returned.  The empty-slice
early return coincides with the scan finding nothing. -/
def getDuplicateEnum (enums : List AEnum) : Option Range :=
  (getDupBy (fun e => e.value.V) enums).map AEnum.range

/-- `getDuplicateItems(items []*Param) (core.Range, bool)`: same scan
with key `Param.Name.V()`. -/
def getDuplicateItems (items : List Param) : Option Range :=
  (getDupBy (fun p => p.name.V) items).map Param.range

/-! ## chkEnumsType and the node sanitizers (sanitize.go) -/

/-- `chkEnumsType(t *TypeAttribute, enums []*Enum, p *token.Parser)`. -/
def chkEnumsType (t : Attribute) (enums : List AEnum) : Option SError :=
  if enums.isEmpty then none
  else if t.V = TypeNumber then
    enums.findSome? fun e =>
      if isNumber e.value.V then none
      else some (newError e.range.start e.range.stop e.xmlName.value .errInvalidFormat)
  else if t.V = TypeBool then
    enums.findSome? fun e =>
      if (goParseBool e.value.V).isSome then none
      else some (newError e.range.start e.range.stop e.xmlName.value .errInvalidFormat)
  else if t.V = TypeObject ∨ t.V = TypeNone then
    some (newError t.range.start t.range.stop t.xmlName.value .errInvalidValue)
  else none

/-- Go's `if err := …; err != nil { return err }` sequencing: the first
error wins. -/
def firstErr (a b : Option SError) : Option SError :=
  match a with
  | some e => some e
  | none => b

/-- The `(Range, bool)` result of `getDuplicateEnum` turned into the
`ErrDuplicateValue` error of the `found` branch (field `enum`). -/
def dupEnumErr (enums : List AEnum) : Option SError :=
  (getDuplicateEnum enums).map fun rng =>
    newError rng.start rng.stop "enum" .errDuplicateValue

/-- Likewise for `getDuplicateItems` (field `param`). -/
def dupItemsErr (items : List Param) : Option SError :=
  (getDuplicateItems items).map fun rng =>
    newError rng.start rng.stop "param" .errDuplicateValue

/-- The `header.Type.V() == TypeObject` loop shared by `API.Sanitize`
(field `header`) and `Request.Sanitize` (field `type`): the first
object-typed header is an error at its type attribute's range. -/
def objHeaderErr (field : String) (headers : List Param) : Option SError :=
  headers.findSome? fun header =>
    if header.ptype.V = TypeObject then
      some (newError header.ptype.range.start header.ptype.range.stop field .errInvalidValue)
    else none

/-- `(api *API) Sanitize`: no header may be object-typed. -/
def API.SanitizeDeep (api : API) : Option SError :=
  objHeaderErr "header" api.headers

/-- `parsePath(path string)`: extract the `{…}`-bracketed parameter
names; the Go `map[string]struct{}` is modelled as a duplicate-free
list.  `cur = some seg` plays the role of `start != -1` (with `seg` the
characters of `path[start:i]`). -/
def parsePathAux : List Char → Option (List Char) → List String → Option (List String)
  | [], some _, _ => none
  | [], none, acc => some acc
  | c :: rest, cur, acc =>
    if c.toNat = 123 then
      match cur with
      | some _ => none
      | none => parsePathAux rest (some []) acc
    else if c.toNat = 125 then
      match cur with
      | none => none
      | some seg =>
        let name := String.mk seg
        parsePathAux rest none (if acc.contains name then acc else acc ++ [name])
    else
      match cur with
      | some seg => parsePathAux rest (some (seg ++ [c])) acc
      | none => parsePathAux rest none acc

/-- `parsePath`. -/
def parsePath (path : String) : Option (List String) :=
  parsePathAux path.data none []

/-- The `param.Name` membership loop of `Path.Sanitize`: every declared
path parameter must occur in the parsed `{…}` names. -/
def pathNamesErr (params : List String) (items : List Param) : Option SError :=
  items.findSome? fun param =>
    if params.contains param.name.V then none
    else some (newError param.range.start param.range.stop "path" .errPathNotMatchParams)

/-- The object-type ban loop of `Path.Sanitize`, run on the path
parameters and then on the query parameters. -/
def objTypeErr (items : List Param) : Option SError :=
  items.findSome? fun item =>
    if item.ptype.V = TypeObject then
      some (newError item.range.start item.range.stop "type" .errInvalidValue)
    else none

/-- `(p *Path) Sanitize`: path syntax, parameter matching, then the
object-type bans on path parameters and query parameters. -/
def APath.SanitizeF (p : APath) : Option SError :=
  match parsePath p.path.V with
  | none => some (newError p.path.range.start p.path.range.stop "path" .errInvalidFormat)
  | some params =>
    if params.length ≠ p.params.length then
      some (newError p.range.start p.range.stop "path" .errPathNotMatchParams)
    else
      firstErr (pathNamesErr params p.params) <|
      firstErr (objTypeErr p.params) (objTypeErr p.queries)

/-- The mimetype/example consistency check of `Request.Sanitize` (the
first mismatching example triggers an error at `r.Mimetype`'s range). -/
def mimetypeErr (r : Request) : Option SError :=
  if r.mimetype.V ≠ "" ∧ r.examples.any (fun exp => exp.mimetype.V ≠ r.mimetype.V) then
    some (newError r.mimetype.range.start r.mimetype.range.stop "mimetype" .errInvalidValue)
  else none

/-- `(r *Request) Sanitize`, check for check in source order. -/
def Request.SanitizeF (r : Request) : Option SError :=
  if r.rtype.V = TypeObject ∧ r.items.isEmpty then
    some (newError r.range.start r.range.stop "param" .errRequired)
  else
    firstErr (dupEnumErr r.enums) <|
    firstErr (chkEnumsType r.rtype r.enums) <|
    firstErr (checkXML r.array.V (!r.items.isEmpty) r.xml) <|
    firstErr (mimetypeErr r) <|
    firstErr (objHeaderErr "type" r.headers)
      (dupItemsErr r.items)

/-- `(p *Param) Sanitize`, check for check in source order. -/
def Param.SanitizeF (p : Param) : Option SError :=
  if p.ptype.V = TypeNone then
    some (newError p.range.start p.range.stop "type" .errRequired)
  else if p.ptype.V = TypeObject ∧ p.items.isEmpty then
    some (newError p.range.start p.range.stop "param" .errRequired)
  else
    firstErr (dupEnumErr p.enums) <|
    firstErr (chkEnumsType p.ptype p.enums) <|
    firstErr (dupItemsErr p.items) <|
    firstErr (checkXML p.array.V (!p.items.isEmpty) p.xml)
      (if p.summary.V = "" ∧ p.description.V = "" then
        some (newError p.range.start p.range.stop "summary" .errRequired)
      else none)

/-! ## Document-level Sanitize (sanitize.go) -/

/-- `(doc *APIDoc) tagExists(tag string)`. -/
def APIDoc.tagExists (doc : APIDoc) (tag : String) : Bool :=
  doc.tags.any fun s => s.name.value.value = tag

/-- `(doc *APIDoc) serverExists(srv string)`. -/
def APIDoc.serverExists (doc : APIDoc) (srv : String) : Bool :=
  doc.servers.any fun s => s.name.value.value = srv

/-- The reference-check loop shared by the two `for` loops of
`sanitizeTags` (`declared` is `doc.tagExists` or `doc.serverExists`):
the first reference whose name is not declared yields an error at the
reference's own `Content` range, with field `content`. -/
def chkRefs (declared : String → Bool) (refs : List TagRef) : Option SError :=
  refs.findSome? fun r =>
    if declared r.content.value then none
    else some (newError r.content.range.start r.content.range.stop "content" .errInvalidValue)

/-- `(api *API) sanitizeTags`: first dangling tag reference, then first
dangling server reference. -/
def API.sanitizeTags (doc : APIDoc) (api : API) : Option SError :=
  firstErr (chkRefs doc.tagExists api.tags) (chkRefs doc.serverExists api.servers)

/-- The comparison closure of `APIDoc.Sanitize`'s `sort.SliceStable`.
Note the first test compares the whole path `Attribute` (Go compares
the attribute values/pointers, positions included), not the path
string: the by-method branch is reached only when the attributes are
identical. -/
def apiLess (a b : API) : Bool :=
  if a.path.path = b.path.path then goStrLt a.method.value.value b.method.value.value
  else goStrLt a.path.path.value.value b.path.path.value.value

/-- The `for _, api := range doc.Apis { … sanitizeTags … }` loop:
returns on the first error. -/
def sanitizeLoop (doc : APIDoc) : List API → Option SError
  | [] => none
  | api :: rest =>
    match API.sanitizeTags doc api with
    | some e => some e
    | none => sanitizeLoop doc rest

/-- `(doc *APIDoc) Sanitize`: stable-sorts `doc.Apis` in place, then
runs `sanitizeTags` over the sorted slice, returning the first error.
The result is the mutated document together with the returned error. -/
def APIDoc.Sanitize (doc : APIDoc) : APIDoc × Option SError :=
  let d : APIDoc := { doc with apis := stableSort apiLess doc.apis }
  (d, sanitizeLoop d d.apis)

/-! ## Codec scalars (`internal/token`, decoder_test helper types)

`intTag.EncodeXML` is `strconv.Itoa(i.Value)`; `intTag.DecodeXML`
walks the token stream and parses character data with
`strconv.Atoi(strings.TrimSpace(...))`.  Go's `int` is 64-bit; we use
unbounded `Int`, which is exact here because `Itoa` output always
re-parses without overflow. -/

/-- Whitespace recognised by `strings.TrimSpace` (ASCII part). -/
def isSpaceCh (c : Char) : Bool :=
  c.toNat = 32 || c.toNat = 9 || c.toNat = 10 || c.toNat = 13 || c.toNat = 11 || c.toNat = 12

/-- `strings.TrimSpace`. -/
def trimSpace (s : String) : String :=
  String.mk (((s.data.dropWhile isSpaceCh).reverse.dropWhile isSpaceCh).reverse)

/-- The decimal digit character for `d < 10`. -/
def digitChar (d : Nat) : Char := Char.ofNat (48 + d)

/-- Decimal digits of `n`, most significant first (empty for `0`). -/
def itoaNat (n : Nat) : List Char := (Nat.digits 10 n).reverse.map digitChar

/-- `strconv.Itoa`. -/
def itoa (v : Int) : String :=
  if v = 0 then "0"
  else if v < 0 then String.mk ('-' :: itoaNat v.natAbs)
  else String.mk (itoaNat v.toNat)

/-- Parse a non-empty all-digit character list as a `Nat`. -/
def parseNatChars (l : List Char) : Option Nat :=
  if l = [] then none
  else if l.all isDigitCh then some (l.foldl (fun a c => a * 10 + (c.toNat - 48)) 0)
  else none

/-- `strconv.Atoi`: optional sign, then decimal digits (overflow cannot
occur on `Itoa` output and is not modelled). -/
def atoi (s : String) : Option Int :=
  match s.data with
  | [] => none
  | c :: rest =>
    if c = '-' then (parseNatChars rest).map fun n : Nat => -(n : Int)
    else if c = '+' then (parseNatChars rest).map fun n : Nat => (n : Int)
    else (parseNatChars (c :: rest)).map fun n : Nat => (n : Int)

/-- The token kinds `intTag.DecodeXML` / `stringTag.DecodeXML` switch
on: end elements, character data (`token.String`), and anything else —
which the source `panic`s on, modelled as an error outcome. -/
inductive Tok where
  | endElement (name : String)
  | str (s : String)
  | other
  deriving DecidableEq, Repr

/-- Decode failure: `strconv.Atoi` error, or the `panic` branch. -/
inductive DecodeErr where
  | atoiErr
  | panicOther
  deriving DecidableEq, Repr

/-- `intTag.DecodeXML`: fold the token stream into the receiver value,
returning it with the matching end element (`none` at EOF, which the
source treats as success with a nil end element). -/
def intTagDecode (startName : String) : List Tok → Int → Except DecodeErr (Int × Option String)
  | [], v => .ok (v, none)
  | .endElement n :: ts, v =>
    if n = startName then .ok (v, some n) else intTagDecode startName ts v
  | .str s :: ts, _ =>
    match atoi (trimSpace s) with
    | none => .error .atoiErr
    | some n => intTagDecode startName ts n
  | .other :: _, _ => .error .panicOther

/-- `intTag.EncodeXML`. -/
def intTagEncode (v : Int) : String := itoa v

/-- `stringTag.DecodeXML`. -/
def stringTagDecode (startName : String) : List Tok → String → Except DecodeErr (String × Option String)
  | [], v => .ok (v, none)
  | .endElement n :: ts, v =>
    if n = startName then .ok (v, some n) else stringTagDecode startName ts v
  | .str s :: ts, _ => stringTagDecode startName ts s
  | .other :: _, _ => .error .panicOther

/-- `stringTag.EncodeXML`. -/
def stringTagEncode (v : String) : String := v

/-- The markup token stream the generic encoder produces for a scalar
tag: its character data followed by the element's end tag. -/
def scalarMarkup (name body : String) : List Tok := [.str body, .endElement name]

/-! ## Ruby-style line-anchored blocks (`internal/lang`) -/

/-- `rubyMultipleComment` (from `newRubyMultipleComment`): the begin and
end delimiters each occupy a whole line, so the file is modelled as a
list of lines; `begin`/`end` here are the delimiter lines. -/
structure RubyBlocker where
  rubyBegin : String
  rubyEnd : String
  deriving DecidableEq, Repr

/-- `BeginFunc`: `l.Position().Character == 0 && l.Match(b.begin)` — a
comment starts when the cursor is at column 0 and the current line is
the begin-delimiter line. -/
def RubyBlocker.beginFunc (b : RubyBlocker) (character : Nat) (line : String) : Bool :=
  character = 0 && line = b.rubyBegin

/-- The search of `Lexer.DelimString(b.end, true)` at line granularity:
index of the first end-delimiter line. -/
def findEndLine (endLine : String) : List String → Option Nat
  | [] => none
  | l :: rest =>
    if l = endLine then some 0 else (findEndLine endLine rest).map (· + 1)

/-- `rubyMultipleComment.EndFunc`: when the end delimiter is not found
the source returns `(nil, nil, false)`; when found, the raw block is
the begin line plus everything through the end line, and the remainder
of the file follows (the `convertMultipleCommentToXML` normalisation
only rewrites the returned data and does not affect which blocks
exist). -/
def RubyBlocker.endFunc (b : RubyBlocker) (rest : List String) : Option (List String × List String) :=
  match findEndLine b.rubyEnd rest with
  | none => none
  | some k => some (b.rubyBegin :: rest.take (k + 1), rest.drop (k + 1))

/-- Modelled from the spec: the block-extraction loop of `internal/lang`
(`lang.Parse` and its lexer) is not among the source files.  Per the
spec it scans the file's lines in order; where `BeginFunc` matches at
column 0 it opens a block (the second argument carries the lines of the
open block), the end-delimiter line closes it exactly as `EndFunc`
consumes through the delimiter, and a block still open at end of file —
`EndFunc`'s not-found case — is discarded without a file-level error,
so the file contributes no block from that point.  Returns the
extracted raw blocks together with the reported file-level errors. -/
def rubyScan (b : RubyBlocker) : List String → Option (List String) → List (List String) × List String
  | [], _ => ([], [])
  | line :: rest, none =>
    if line = b.rubyBegin then rubyScan b rest (some [b.rubyBegin])
    else rubyScan b rest none
  | line :: rest, some acc =>
    if line = b.rubyEnd then
      let res := rubyScan b rest none
      ((acc ++ [line]) :: res.1, res.2)
    else rubyScan b rest (some (acc ++ [line]))

/-- Extraction of the line-anchored blocks of a whole file. -/
def extractRuby (b : RubyBlocker) (lines : List String) : List (List String) × List String :=
  rubyScan b lines none

/-! ## `doc.Enum.UnmarshalXML` (doc/enum.go) -/

/-- The `shadowEnum` the XML decoder fills in. -/
structure ShadowEnum where
  deprecated : String
  value : String
  description : String
  deriving DecidableEq, Repr

/-- `doc.Enum`: the receiver of `UnmarshalXML`. -/
structure DocEnum where
  deprecated : String
  value : String
  description : String
  deriving DecidableEq, Repr

/-- The errors `UnmarshalXML` can return: the decoder's own error, or
`locale.Errorf(locale.ErrRequired, field)`. -/
inductive UnmarshalErr where
  | xmlErr (msg : String)
  | required (field : String)
  deriving DecidableEq, Repr

/-- `(e *Enum) UnmarshalXML`: `res` is the outcome of
`d.DecodeElement(&shadow, &start)`.  The receiver is assigned only in
the final success branch (`*e = Enum(shadow)`); every failure leaves it
untouched. -/
def enumUnmarshalXML (e : DocEnum) (res : Except String ShadowEnum) :
    DocEnum × Option UnmarshalErr :=
  match res with
  | .error msg => (e, some (.xmlErr msg))
  | .ok sh =>
    if sh.value = "" then (e, some (.required "value"))
    else if sh.description = "" then (e, some (.required "description"))
    else (⟨sh.deprecated, sh.value, sh.description⟩, none)

/-! ## Concrete fixtures used by the closed theorems -/

def mkPos (ln : Nat) : Pos := ⟨ln, 0⟩

def mkRange (a b : Nat) : Range := ⟨mkPos a, mkPos b⟩

def mkStr (a b : Nat) (s : String) : CoreStr := ⟨mkRange a b, s⟩

def mkAttr (a b : Nat) (n v : String) : Attribute := ⟨mkRange a b, mkStr a b n, mkStr a b v⟩

/-- A minimal API at line `ln` with the given method and path. -/
def mkAPI (ln : Nat) (method path : String) : API :=
  { range := mkRange ln ln
    method := mkAttr ln ln "method" method
    path := { range := mkRange ln ln, path := mkAttr ln ln "path" path
              params := [], queries := [] }
    tags := [], servers := [], headers := [] }

/-- Three APIs appended as `(GET,/b)`, `(POST,/a)`, `(GET,/a)`, each
decoded from its own source position (so their path attributes carry
distinct ranges, as they do for APIs coming from different comment
blocks). -/
def exDocC1 : APIDoc :=
  { apis := [mkAPI 1 "GET" "/b", mkAPI 2 "POST" "/a", mkAPI 3 "GET" "/a"]
    tags := [], servers := [] }

/-- The same three APIs appended in a different order. -/
def exDocC1rev : APIDoc :=
  { apis := [mkAPI 3 "GET" "/a", mkAPI 2 "POST" "/a", mkAPI 1 "GET" "/b"]
    tags := [], servers := [] }

/-- An XML-shape record with every hint unset. -/
def emptyXML : XML :=
  { xmlAttr := ⟨mkRange 0 0, mkStr 0 0 "xml-attr", false⟩
    xmlExtract := ⟨mkRange 0 0, mkStr 0 0 "xml-extract", false⟩
    xmlNS := mkAttr 0 0 "xml-ns" ""
    xmlNSPfx := mkAttr 0 0 "xml-ns-prefix" ""
    xmlWrapped := mkAttr 0 0 "xml-wrapped" "" }

/-- A parameter at line `ln` with the given name and type and no
children/enums. -/
def mkParam (ln : Nat) (name ty : String) : Param :=
  .mk (mkRange ln ln) (mkAttr ln ln "name" name) (mkAttr ln ln "type" ty)
    (mkAttr ln ln "summary" "s") (mkAttr ln ln "description" "")
    ⟨mkRange ln ln, mkStr ln ln "array", false⟩ [] [] emptyXML

/-- An enum element at line `ln` carrying the given value string. -/
def mkEnum (ln : Nat) (v : String) : AEnum :=
  ⟨mkRange ln ln, mkStr ln ln "enum", mkAttr ln ln "value" v⟩

/-- A document whose only API references the undeclared tag `ghost`
while only `real` is declared. -/
def exDocC3 : APIDoc :=
  { apis := [{ mkAPI 5 "GET" "/x" with tags := [⟨mkStr 5 6 "ghost"⟩] }]
    tags := [⟨mkAttr 1 1 "name" "real"⟩], servers := [] }

/-- Enums `a`, `b`, `a` — the value `a` occurs at lines 1 and 3. -/
def exEnumsC4 : List AEnum := [mkEnum 1 "a", mkEnum 2 "b", mkEnum 3 "a"]

/-- A `number`-typed attribute and the enum values `1`, `2`, `x`. -/
def exTypeC5 : Attribute := mkAttr 1 1 "type" "number"

def exEnumsC5 : List AEnum := [mkEnum 2 "1", mkEnum 3 "2", mkEnum 4 "x"]

/-- An object-typed request body with no child items. -/
def exReqC6 : Request :=
  { range := mkRange 7 8
    rtype := mkAttr 7 7 "type" "object"
    items := [], enums := []
    array := ⟨mkRange 7 7, mkStr 7 7 "array", false⟩
    xml := emptyXML
    mimetype := mkAttr 7 7 "mimetype" ""
    examples := [], headers := [] }

/-- Two APIs, each referencing an undeclared tag (`g1` resp. `g2`). -/
def exApiC8a : API := { mkAPI 1 "GET" "/a" with tags := [⟨mkStr 1 2 "g1"⟩] }

def exApiC8b : API := { mkAPI 2 "GET" "/b" with tags := [⟨mkStr 2 3 "g2"⟩] }

def exDocC8 : APIDoc := { apis := [exApiC8a, exApiC8b], tags := [], servers := [] }

/-- The Ruby blocker with the usual `=begin`/`=end` delimiters. -/
def rubyBlk : RubyBlocker := ⟨"=begin", "=end"⟩

/-- A file with one complete block followed by an unterminated one. -/
def exLinesC9 : List String :=
  ["code", "=begin", "a", "=end", "text", "=begin", "b", "c"]

/-! ## Generic lemmas about the loop and sort models -/

section ListLemmas

variable {α β : Type}

theorem goStrLt_iff (a b : String) : goStrLt a b = true ↔ a < b := by
  rw [goStrLt, decide_eq_true_iff]
  exact String.lt_iff_toList_lt.symm

theorem findSome?_eq_none_iff {f : α → Option β} :
    ∀ {l : List α}, l.findSome? f = none ↔ ∀ a ∈ l, f a = none := by
  intro l
  induction l with
  | nil => simp
  | cons a l ih =>
    rw [List.findSome?_cons]
    cases h : f a with
    | some b => simp [h]
    | none => simp [h, ih]

theorem findSome?_decomp {f : α → Option β} :
    ∀ {l : List α} {e : β}, l.findSome? f = some e →
      ∃ l₁ a l₂, l = l₁ ++ a :: l₂ ∧ (∀ x ∈ l₁, f x = none) ∧ f a = some e := by
  intro l
  induction l with
  | nil => simp
  | cons a l ih =>
    intro e h
    rw [List.findSome?_cons] at h
    cases ha : f a with
    | some b =>
      rw [ha] at h
      have hb : b = e := by simpa using h
      exact ⟨[], a, l, by simp, by simp, by rw [ha, hb]⟩
    | none =>
      rw [ha] at h
      obtain ⟨l₁, x, l₂, rfl, h₁, h₂⟩ := ih h
      exact ⟨a :: l₁, x, l₂, rfl, by
        intro y hy
        rcases List.mem_cons.1 hy with rfl | hy
        · exact ha
        · exact h₁ y hy, h₂⟩

theorem findSome?_append_some {f : α → Option β} {l₁ l₂ : List α} {a : α} {e : β}
    (h₁ : ∀ x ∈ l₁, f x = none) (h₂ : f a = some e) :
    (l₁ ++ a :: l₂).findSome? f = some e := by
  induction l₁ with
  | nil => simp [List.findSome?_cons, h₂]
  | cons x l₁ ih =>
    rw [List.cons_append, List.findSome?_cons, h₁ x (by simp)]
    exact ih fun y hy => h₁ y (by simp [hy])

theorem findSome?_isSome_iff {f : α → Option β} {l : List α} :
    (l.findSome? f).isSome = true ↔ ∃ a ∈ l, (f a).isSome = true := by
  constructor
  · intro h
    cases he : l.findSome? f with
    | none => rw [he] at h; cases h
    | some e =>
      obtain ⟨l₁, a, l₂, rfl, _, ha⟩ := findSome?_decomp he
      exact ⟨a, by simp, by simp [ha]⟩
  · rintro ⟨a, hmem, ha⟩
    cases he : l.findSome? f with
    | some e => simp
    | none =>
      rw [findSome?_eq_none_iff] at he
      rw [he a hmem] at ha
      cases ha

theorem sortInsert_perm (less : α → α → Bool) (x : α) :
    ∀ l : List α, (sortInsert less x l).Perm (x :: l) := by
  intro l
  induction l with
  | nil => simp [sortInsert]
  | cons y l ih =>
    rw [sortInsert]
    by_cases h : less y x
    · simp only [h, if_true]
      exact (ih.cons y).trans (List.Perm.swap x y l)
    · simp [h]

theorem stableSort_perm (less : α → α → Bool) :
    ∀ l : List α, (stableSort less l).Perm l := by
  intro l
  induction l with
  | nil => simp [stableSort]
  | cons x l ih =>
    rw [stableSort]
    exact (sortInsert_perm less x _).trans (ih.cons x)

theorem mem_sortInsert {less : α → α → Bool} {x y : α} {l : List α} :
    y ∈ sortInsert less x l ↔ y = x ∨ y ∈ l := by
  rw [(sortInsert_perm less x l).mem_iff, List.mem_cons]

theorem mem_stableSort {less : α → α → Bool} {x : α} {l : List α} :
    x ∈ stableSort less l ↔ x ∈ l :=
  (stableSort_perm less l).mem_iff

theorem sortInsert_pairwise (k : α → String) (x : α) :
    ∀ {l : List α}, l.Pairwise (fun a b => k b ≤ k a) →
      (sortInsert (lessDesc k) x l).Pairwise (fun a b => k b ≤ k a) := by
  intro l
  induction l with
  | nil =>
    intro _
    simp [sortInsert]
  | cons y l ih =>
    intro h
    rw [List.pairwise_cons] at h
    obtain ⟨hy, hl⟩ := h
    rw [sortInsert]
    split
    · next hc =>
      have hlt : k x < k y := (goStrLt_iff _ _).1 hc
      rw [List.pairwise_cons]
      refine ⟨?_, ih hl⟩
      intro b hb
      rcases mem_sortInsert.1 hb with rfl | hb
      · exact le_of_lt hlt
      · exact hy b hb
    · next hc =>
      have hxy : k y ≤ k x := not_lt.1 fun hlt => hc ((goStrLt_iff _ _).2 hlt)
      rw [List.pairwise_cons]
      refine ⟨?_, List.pairwise_cons.2 ⟨hy, hl⟩⟩
      intro b hb
      rcases List.mem_cons.1 hb with rfl | hb
      · exact hxy
      · exact (hy b hb).trans hxy

theorem stableSort_pairwise (k : α → String) :
    ∀ l : List α, (stableSort (lessDesc k) l).Pairwise (fun a b => k b ≤ k a) := by
  intro l
  induction l with
  | nil => simp [stableSort]
  | cons x l ih => exact sortInsert_pairwise k x ih

theorem filter_sortInsert (k : α → String) (v : String) (x : α) :
    ∀ l : List α,
      (sortInsert (lessDesc k) x l).filter (fun a => k a == v) =
        (x :: l).filter (fun a => k a == v) := by
  intro l
  induction l with
  | nil => simp [sortInsert]
  | cons y l ih =>
    rw [sortInsert]
    split
    · next hc =>
      have hlt : k x < k y := (goStrLt_iff _ _).1 hc
      by_cases hx : k x = v
      · have hy : ¬ k y = v := by
          intro hyv
          rw [hx] at hlt
          rw [hyv] at hlt
          exact lt_irrefl _ hlt
        rw [List.filter_cons, ih]
        simp [List.filter_cons, hx, hy]
      · rw [List.filter_cons, ih]
        simp [List.filter_cons, hx]
    · next => rfl

theorem filter_stableSort (k : α → String) (v : String) :
    ∀ l : List α,
      (stableSort (lessDesc k) l).filter (fun a => k a == v) =
        l.filter (fun a => k a == v) := by
  intro l
  induction l with
  | nil => simp [stableSort]
  | cons x l ih =>
    rw [stableSort, filter_sortInsert, List.filter_cons, List.filter_cons, ih]

theorem findAdjDup_eq_some (k : α → String) :
    ∀ (l : List α) (b : α), findAdjDup k l = some b →
      ∃ s₁ a s₂, l = s₁ ++ a :: b :: s₂ ∧ k a = k b
  | [], b => by simp [findAdjDup]
  | [a], b => by simp [findAdjDup]
  | a :: c :: t, b => by
    rw [findAdjDup]
    by_cases h : k a = k c
    · simp only [h, if_true]
      intro he
      cases he
      exact ⟨[], a, t, by simp, h⟩
    · simp only [h, if_false]
      intro he
      obtain ⟨s₁, a', s₂, heq, hk⟩ := findAdjDup_eq_some k (c :: t) b he
      exact ⟨a :: s₁, a', s₂, by rw [heq]; simp, hk⟩

theorem findAdjDup_none_nodup (k : α → String) :
    ∀ l : List α, l.Pairwise (fun a b => k b ≤ k a) →
      findAdjDup k l = none → (l.map k).Nodup
  | [] => by simp
  | [a] => by simp
  | a :: c :: t => by
    intro hp hf
    rw [findAdjDup] at hf
    by_cases h : k a = k c
    · simp [h] at hf
    · simp only [h, if_false] at hf
      rw [List.pairwise_cons] at hp
      obtain ⟨ha, hp'⟩ := hp
      have ih := findAdjDup_none_nodup k (c :: t) hp' hf
      rw [List.map_cons, List.nodup_cons]
      refine ⟨?_, ih⟩
      intro hmem
      rw [List.map_cons, List.mem_cons] at hmem
      rcases hmem with hac | hmem
      · exact h hac
      · obtain ⟨x, hx, hkx⟩ := List.mem_map.1 hmem
        have h1 : k x ≤ k c := (List.pairwise_cons.1 hp').1 x hx
        have h2 : k c ≤ k a := ha c (by simp)
        rw [hkx] at h1
        exact h (le_antisymm h1 h2)

theorem pair_sublist_decomp {a b : α} :
    ∀ l : List α, List.Sublist [a, b] l → ∃ l₁ l₂ l₃, l = l₁ ++ a :: l₂ ++ b :: l₃
  | [], h => by cases h
  | c :: t, h => by
    cases h with
    | cons _ h' =>
      obtain ⟨l₁, l₂, l₃, rfl⟩ := pair_sublist_decomp t h'
      exact ⟨c :: l₁, l₂, l₃, rfl⟩
    | cons₂ _ h' =>
      have hb : b ∈ t := h'.subset (by simp)
      obtain ⟨s, t', rfl⟩ := List.append_of_mem hb
      exact ⟨[], s, t', rfl⟩

/-- Combined stability result: a hit of `getDupBy` is the later of two
occurrences of the same key in the original list. -/
theorem getDupBy_eq_some (k : α → String) {l : List α} {b : α}
    (h : getDupBy k l = some b) :
    ∃ l₁ a l₂ l₃, l = l₁ ++ a :: l₂ ++ b :: l₃ ∧ k a = k b := by
  obtain ⟨s₁, a, s₂, hsort, hk⟩ := findAdjDup_eq_some k _ b h
  have hfil := filter_stableSort k (k b) l
  rw [hsort] at hfil
  rw [List.filter_append, List.filter_cons, List.filter_cons] at hfil
  simp only [hk, beq_self_eq_true, if_true] at hfil
  have hsuf : List.Sublist (a :: b :: s₂.filter (fun x => k x == k b)) l := by
    have h1 : List.IsSuffix (a :: b :: s₂.filter (fun x => k x == k b))
        (l.filter (fun x => k x == k b)) := ⟨s₁.filter (fun x => k x == k b), hfil⟩
    exact h1.sublist.trans (List.filter_sublist l)
  have hpair : List.Sublist [a, b] l := by
    refine List.Sublist.trans ?_ hsuf
    exact List.Sublist.cons₂ a (List.Sublist.cons₂ b (List.nil_sublist _))
  obtain ⟨l₁, l₂, l₃, rfl⟩ := pair_sublist_decomp l hpair
  exact ⟨l₁, a, l₂, l₃, rfl, hk⟩

/-- Completeness: `getDupBy` hits exactly when the keys are not
duplicate-free. -/
theorem getDupBy_isSome_iff (k : α → String) (l : List α) :
    (getDupBy k l).isSome = true ↔ ¬ (l.map k).Nodup := by
  constructor
  · intro h
    cases he : getDupBy k l with
    | none => rw [he] at h; cases h
    | some b =>
      obtain ⟨l₁, a, l₂, l₃, rfl, hk⟩ := getDupBy_eq_some k he
      intro hnd
      have hpair : List.Sublist [a, b] (l₁ ++ a :: l₂ ++ b :: l₃) := by
        have h1 : List.Sublist [a] (l₁ ++ a :: l₂) :=
          List.Sublist.trans (List.Sublist.cons₂ a (List.nil_sublist _))
            (List.sublist_append_right l₁ _)
        have h2 : List.Sublist [b] (b :: l₃) :=
          List.Sublist.cons₂ b (List.nil_sublist _)
        exact h1.append h2
      have hmap : List.Sublist [k a, k b] ((l₁ ++ a :: l₂ ++ b :: l₃).map k) := by
        have := hpair.map k
        simp only [List.map_cons, List.map_nil] at this
        exact this
      rw [hk] at hmap
      have hnd2 := hmap.nodup hnd
      simp at hnd2
  · intro h
    cases he : getDupBy k l with
    | some b => simp
    | none =>
      exfalso
      apply h
      have hnd : ((stableSort (lessDesc k) l).map k).Nodup :=
        findAdjDup_none_nodup k _ (stableSort_pairwise k l) he
      exact (((stableSort_perm (lessDesc k) l).map k).nodup_iff).1 hnd

end ListLemmas

/-! ## Claim theorems -/

/-- C1: refuted on the code — with the claim's own three APIs appended
as `(GET,/b)`, `(POST,/a)`, `(GET,/a)`, each path attribute carrying its
own source range (as attributes decoded from different blocks do),
`APIDoc.Sanitize` leaves the two `/a` APIs in insertion order, so the
final order is `(POST,/a), (GET,/a), (GET,/b)` and not the claimed
method-sorted order; appending the same APIs in another order yields a
different result, so the order also depends on append order.  The tie
branch of the comparator fires only on identical path attributes
(`ii.Path.Path == jj.Path.Path`), never on mere path-string equality. -/
theorem claim_C1 :
    ((APIDoc.Sanitize exDocC1).1.apis.map (fun a => (a.method.V, a.path.path.V)) =
        [("POST", "/a"), ("GET", "/a"), ("GET", "/b")])
    ∧ ((APIDoc.Sanitize exDocC1rev).1.apis.map (fun a => (a.method.V, a.path.path.V)) =
        [("GET", "/a"), ("POST", "/a"), ("GET", "/b")])
    ∧ (APIDoc.Sanitize exDocC1).1.apis.map (fun a => (a.method.V, a.path.path.V)) ≠
        (APIDoc.Sanitize exDocC1rev).1.apis.map (fun a => (a.method.V, a.path.path.V)) := by
  refine ⟨by decide, by decide, by decide⟩

/-- C7: `checkXML` succeeds exactly when no forbidden combination
holds: the attribute flag together with any of array flag, object
children, wrapped-array name, extraction flag, namespace or namespace
prefix; a wrapped-array name without the array flag; the extraction
flag with a namespace or prefix; or a namespace with an empty prefix. -/
theorem claim_C7 (isArray hasItems : Bool) (xml : XML) :
    checkXML isArray hasItems xml = none ↔
      ¬ ((xml.xmlAttr.V = true ∧ (isArray = true ∨ hasItems = true ∨
            xml.xmlWrapped.V ≠ "" ∨ xml.xmlExtract.V = true ∨
            xml.xmlNS.V ≠ "" ∨ xml.xmlNSPfx.V ≠ ""))
        ∨ (xml.xmlWrapped.V ≠ "" ∧ isArray = false)
        ∨ (xml.xmlExtract.V = true ∧ (xml.xmlNS.V ≠ "" ∨ xml.xmlNSPfx.V ≠ ""))
        ∨ (xml.xmlNS.V ≠ "" ∧ xml.xmlNSPfx.V = "")) := by
  cases hI : isArray <;> cases hT : hasItems <;>
    cases hA : xml.xmlAttr.V <;> cases hE : xml.xmlExtract.V <;>
    by_cases hW : xml.xmlWrapped.V = "" <;>
    by_cases hN : xml.xmlNS.V = "" <;>
    by_cases hP : xml.xmlNSPfx.V = "" <;>
    simp_all [checkXML, checkXML.checkXMLRest]

/-- C10: `Enum.UnmarshalXML` is atomic in its receiver: it succeeds iff
the XML decode succeeded and both the value and the description are
non-empty, any failure leaves the receiver unchanged, a missing value
or description yields the required-field error keyed by that field's
name, and on success the receiver gets exactly the decoded shadow. -/
theorem claim_C10 (e : DocEnum) (res : Except String ShadowEnum) :
    ((enumUnmarshalXML e res).2 = none ↔
      ∃ sh, res = .ok sh ∧ sh.value ≠ "" ∧ sh.description ≠ "")
    ∧ (∀ err, (enumUnmarshalXML e res).2 = some err → (enumUnmarshalXML e res).1 = e)
    ∧ (∀ sh, res = .ok sh → sh.value = "" →
        enumUnmarshalXML e res = (e, some (.required "value")))
    ∧ (∀ sh, res = .ok sh → sh.value ≠ "" → sh.description = "" →
        enumUnmarshalXML e res = (e, some (.required "description")))
    ∧ (∀ sh, res = .ok sh → sh.value ≠ "" → sh.description ≠ "" →
        enumUnmarshalXML e res = (⟨sh.deprecated, sh.value, sh.description⟩, none)) := by
  cases res with
  | error msg => simp [enumUnmarshalXML]
  | ok sh =>
    by_cases hv : sh.value = "" <;> by_cases hd : sh.description = "" <;>
      simp_all [enumUnmarshalXML]

/-- C10 witness: a shadow with an empty description is rejected with the
required-field error for `description` and the receiver is unchanged. -/
theorem claim_C10_witness :
    enumUnmarshalXML ⟨"", "old", "kept"⟩ (.ok ⟨"dep", "v", ""⟩) =
      (⟨"", "old", "kept"⟩, some (.required "description")) :=
  (claim_C10 ⟨"", "old", "kept"⟩ (.ok ⟨"dep", "v", ""⟩)).2.2.2.1
    ⟨"dep", "v", ""⟩ rfl (by decide) rfl

/-! ### Lemmas for the codec round trip (C2) -/

theorem digitChar_toNat {d : Nat} (h : d < 10) : (digitChar d).toNat = 48 + d := by
  interval_cases d <;> decide

theorem isDigitCh_digitChar {d : Nat} (h : d < 10) : isDigitCh (digitChar d) = true := by
  interval_cases d <;> decide

theorem not_space_digitChar {d : Nat} (h : d < 10) : isSpaceCh (digitChar d) = false := by
  interval_cases d <;> decide

theorem data_mk (l : List Char) : (String.mk l).data = l := rfl

theorem foldl_congr_mem {α β : Type} (f g : β → α → β) :
    ∀ l : List α, (∀ b, ∀ x ∈ l, f b x = g b x) →
      ∀ b : β, l.foldl f b = l.foldl g b := by
  intro l
  induction l with
  | nil =>
    intro _ b
    rfl
  | cons x t ih =>
    intro h b
    rw [List.foldl_cons, List.foldl_cons, h b x (by simp)]
    exact ih (fun b' y hy => h b' y (by simp [hy])) _

theorem mem_itoaNat {c : Char} {n : Nat} (hc : c ∈ itoaNat n) :
    ∃ d, d < 10 ∧ c = digitChar d := by
  rw [itoaNat] at hc
  obtain ⟨d, hd, rfl⟩ := List.mem_map.1 hc
  exact ⟨d, Nat.digits_lt_base (by norm_num) (List.mem_reverse.1 hd), rfl⟩

theorem foldl_base10 (L : List Nat) :
    ∀ acc : Nat, L.reverse.foldl (fun a d => a * 10 + d) acc =
      acc * 10 ^ L.length + Nat.ofDigits 10 L := by
  induction L with
  | nil => intro acc; simp
  | cons d T ih =>
    intro acc
    rw [List.reverse_cons, List.foldl_append]
    simp only [List.foldl_cons, List.foldl_nil]
    rw [ih, Nat.ofDigits_cons, List.length_cons, pow_succ]
    ring

theorem parseNatChars_itoaNat {n : Nat} (h : n ≠ 0) :
    parseNatChars (itoaNat n) = some n := by
  have hne : Nat.digits 10 n ≠ [] := Nat.digits_ne_nil_iff_ne_zero.2 h
  have hnil : itoaNat n ≠ [] := by
    rw [itoaNat]
    simp [hne]
  have hall : (itoaNat n).all isDigitCh = true := by
    rw [List.all_eq_true]
    intro c hc
    obtain ⟨d, hd, rfl⟩ := mem_itoaNat hc
    exact isDigitCh_digitChar hd
  rw [parseNatChars, if_neg hnil, if_pos hall]
  congr 1
  rw [itoaNat, List.foldl_map]
  have hstep : ∀ (a : Nat), ∀ d ∈ (Nat.digits 10 n).reverse,
      a * 10 + ((digitChar d).toNat - 48) = a * 10 + d := by
    intro a d hd
    have hlt : d < 10 := Nat.digits_lt_base (by norm_num) (List.mem_reverse.1 hd)
    rw [digitChar_toNat hlt]
    omega
  rw [foldl_congr_mem _ _ _ hstep, foldl_base10]
  simp [Nat.ofDigits_digits]

theorem atoi_itoa (v : Int) : atoi (itoa v) = some v := by
  by_cases h0 : v = 0
  · rw [h0]
    decide
  · by_cases hneg : v < 0
    · rw [itoa, if_neg h0, if_pos hneg]
      have hne : v.natAbs ≠ 0 := by
        intro hc
        exact h0 (Int.natAbs_eq_zero.1 hc)
      have habs : ((v.natAbs : Nat) : Int) = -v := Int.ofNat_natAbs_of_nonpos (le_of_lt hneg)
      simp [atoi, data_mk, parseNatChars_itoaNat hne, habs]
    · have hpos : 0 < v := lt_of_le_of_ne (not_lt.1 hneg) (Ne.symm h0)
      have hne : v.toNat ≠ 0 := by
        intro hc
        have := Int.toNat_of_nonneg (le_of_lt hpos)
        omega
      rw [itoa, if_neg h0, if_neg hneg]
      obtain ⟨c, rest, heq⟩ : ∃ c rest, itoaNat v.toNat = c :: rest := by
        cases hni : itoaNat v.toNat with
        | nil =>
          exfalso
          have hnil : Nat.digits 10 v.toNat ≠ [] := Nat.digits_ne_nil_iff_ne_zero.2 hne
          rw [itoaNat] at hni
          simp [hnil] at hni
        | cons c rest => exact ⟨c, rest, rfl⟩
      have hdig : ∃ d, d < 10 ∧ c = digitChar d := mem_itoaNat (by rw [heq]; simp)
      obtain ⟨d, hd, rfl⟩ := hdig
      have hcm : digitChar d ≠ '-' := by
        intro hc
        have hd2 := isDigitCh_digitChar hd
        rw [hc] at hd2
        exact absurd hd2 (by decide)
      have hcp : digitChar d ≠ '+' := by
        intro hc
        have hd2 := isDigitCh_digitChar hd
        rw [hc] at hd2
        exact absurd hd2 (by decide)
      rw [heq]
      simp only [atoi, data_mk]
      rw [if_neg hcm, if_neg hcp, ← heq, parseNatChars_itoaNat hne]
      simp [Int.toNat_of_nonneg (le_of_lt hpos)]

theorem dropWhile_all_false (p : Char → Bool) (l : List Char)
    (h : ∀ c ∈ l, p c = false) : l.dropWhile p = l := by
  cases l with
  | nil => rfl
  | cons c t =>
    rw [List.dropWhile_cons, h c (by simp)]
    simp

theorem itoa_no_space (v : Int) : ∀ c ∈ (itoa v).data, isSpaceCh c = false := by
  intro c hc
  by_cases h0 : v = 0
  · rw [h0] at hc
    simp only [itoa, if_pos rfl] at hc
    have : c = '0' := by
      cases hc with
      | head => rfl
      | tail _ hmem => cases hmem
    rw [this]
    decide
  · by_cases hneg : v < 0
    · rw [itoa, if_neg h0, if_pos hneg] at hc
      simp only [String.data] at hc
      cases hc with
      | head => decide
      | tail _ hmem =>
        obtain ⟨d, hd, rfl⟩ := mem_itoaNat hmem
        exact not_space_digitChar hd
    · rw [itoa, if_neg h0, if_neg hneg] at hc
      simp only [String.data] at hc
      obtain ⟨d, hd, rfl⟩ := mem_itoaNat hc
      exact not_space_digitChar hd

theorem trimSpace_itoa (v : Int) : trimSpace (itoa v) = itoa v := by
  have h := itoa_no_space v
  cases hs : itoa v with
  | mk data =>
    rw [hs] at h
    rw [trimSpace]
    simp only [String.data] at h
    rw [dropWhile_all_false _ _ h]
    rw [dropWhile_all_false _ _ (fun c hc => h c (List.mem_reverse.1 hc))]
    rw [List.reverse_reverse]

/-- C2: the round-trip law for the codec's scalar node types present in
the source: decoding the markup produced by encoding an `intTag` value
(its decimal character data followed by the element's end tag) restores
exactly that value, whatever the receiver's prior value; likewise for
`stringTag`. -/
theorem claim_C2 (name : String) (v v0 : Int) (s s0 : String) :
    intTagDecode name (scalarMarkup name (intTagEncode v)) v0 = .ok (v, some name)
    ∧ stringTagDecode name (scalarMarkup name (stringTagEncode s)) s0 = .ok (s, some name) := by
  constructor
  · rw [scalarMarkup, intTagEncode]
    rw [intTagDecode]
    rw [trimSpace_itoa, atoi_itoa]
    simp [intTagDecode]
  · simp [scalarMarkup, stringTagEncode, stringTagDecode]

/-! ### Lemmas for the cross-reference check (C3) -/

theorem firstErr_none_iff {a b : Option SError} :
    firstErr a b = none ↔ a = none ∧ b = none := by
  cases a <;> simp [firstErr]

theorem firstErr_isSome_iff {a b : Option SError} :
    (firstErr a b).isSome = true ↔ a.isSome = true ∨ b.isSome = true := by
  cases a <;> simp [firstErr]

theorem firstErr_eq_some_iff {a b : Option SError} {e : SError} :
    firstErr a b = some e ↔ a = some e ∨ (a = none ∧ b = some e) := by
  cases a <;> simp [firstErr]

theorem tagExists_iff (doc : APIDoc) (n : String) :
    doc.tagExists n = true ↔ ∃ tg ∈ doc.tags, tg.name.V = n := by
  simp [APIDoc.tagExists, List.any_eq_true, Attribute.V]

theorem serverExists_iff (doc : APIDoc) (n : String) :
    doc.serverExists n = true ↔ ∃ sv ∈ doc.servers, sv.name.V = n := by
  simp [APIDoc.serverExists, List.any_eq_true, Attribute.V]

theorem chkRefs_none_iff {declared : String → Bool} {refs : List TagRef} :
    chkRefs declared refs = none ↔ ∀ r ∈ refs, declared r.content.value = true := by
  rw [chkRefs, findSome?_eq_none_iff]
  constructor
  · intro h r hr
    by_cases hx : declared r.content.value = true
    · exact hx
    · have hcontra := h r hr
      rw [if_neg hx] at hcontra
      cases hcontra
  · intro h r hr
    rw [if_pos (h r hr)]

theorem chkRefs_some {declared : String → Bool} {refs : List TagRef} {e : SError}
    (h : chkRefs declared refs = some e) :
    ∃ r ∈ refs, declared r.content.value = false ∧
      e = newError r.content.range.start r.content.range.stop "content" .errInvalidValue := by
  rw [chkRefs] at h
  obtain ⟨l₁, r, l₂, hsplit, _, hr⟩ := findSome?_decomp h
  by_cases hx : declared r.content.value = true
  · rw [if_pos hx] at hr
    cases hr
  · rw [if_neg hx] at hr
    have hf : declared r.content.value = false := by
      cases hb : declared r.content.value
      · rfl
      · exact absurd hb hx
    injection hr with hr
    exact ⟨r, by rw [hsplit]; simp, hf, hr.symm⟩

theorem chkRefs_isSome_iff {declared : String → Bool} {refs : List TagRef} :
    (chkRefs declared refs).isSome = true ↔
      ∃ r ∈ refs, declared r.content.value = false := by
  rw [chkRefs, findSome?_isSome_iff]
  constructor
  · rintro ⟨r, hr, hp⟩
    refine ⟨r, hr, ?_⟩
    by_cases hx : declared r.content.value = true
    · rw [if_pos hx] at hp
      cases hp
    · cases hb : declared r.content.value
      · rfl
      · exact absurd hb hx
  · rintro ⟨r, hr, hp⟩
    refine ⟨r, hr, ?_⟩
    rw [if_neg]
    · rfl
    · intro hcontra
      rw [hp] at hcontra
      cases hcontra

theorem sanitizeTags_none_iff {doc : APIDoc} {api : API} :
    API.sanitizeTags doc api = none ↔
      (∀ t ∈ api.tags, doc.tagExists t.content.value = true) ∧
      (∀ s ∈ api.servers, doc.serverExists s.content.value = true) := by
  rw [API.sanitizeTags, firstErr_none_iff, chkRefs_none_iff, chkRefs_none_iff]

theorem sanitizeTags_isSome_iff {doc : APIDoc} {api : API} :
    (API.sanitizeTags doc api).isSome = true ↔
      (∃ t ∈ api.tags, doc.tagExists t.content.value = false) ∨
      (∃ s ∈ api.servers, doc.serverExists s.content.value = false) := by
  rw [API.sanitizeTags, firstErr_isSome_iff, chkRefs_isSome_iff, chkRefs_isSome_iff]

theorem sanitizeTags_some {doc : APIDoc} {api : API} {e : SError}
    (h : API.sanitizeTags doc api = some e) :
    (∃ t ∈ api.tags, doc.tagExists t.content.value = false ∧
      e = newError t.content.range.start t.content.range.stop "content" .errInvalidValue) ∨
    (∃ s ∈ api.servers, doc.serverExists s.content.value = false ∧
      e = newError s.content.range.start s.content.range.stop "content" .errInvalidValue) := by
  rw [API.sanitizeTags, firstErr_eq_some_iff] at h
  rcases h with h | ⟨_, h⟩
  · exact Or.inl (chkRefs_some h)
  · exact Or.inr (chkRefs_some h)

theorem sanitizeLoop_eq_findSome? (doc : APIDoc) :
    ∀ l : List API, sanitizeLoop doc l = l.findSome? (API.sanitizeTags doc) := by
  intro l
  induction l with
  | nil => rfl
  | cons api rest ih =>
    rw [sanitizeLoop, List.findSome?_cons]
    cases API.sanitizeTags doc api with
    | some e => rfl
    | none => exact ih

theorem sanitize_snd_eq (doc : APIDoc) :
    (APIDoc.Sanitize doc).2 =
      (stableSort apiLess doc.apis).findSome? (API.sanitizeTags doc) := by
  rw [APIDoc.Sanitize]
  exact sanitizeLoop_eq_findSome? _ _

/-- C3: document-level `Sanitize` fails iff some API references a tag or
server name absent from the declared collections; the returned error is
located at the referencing occurrence's own `Content` range (not at the
API element); and `tagExists`/`serverExists` hold exactly for declared
names. -/
theorem claim_C3 (doc : APIDoc) :
    ((APIDoc.Sanitize doc).2.isSome = true ↔
      ∃ api ∈ doc.apis,
        (∃ t ∈ api.tags, doc.tagExists t.content.value = false) ∨
        (∃ s ∈ api.servers, doc.serverExists s.content.value = false))
    ∧ (∀ e, (APIDoc.Sanitize doc).2 = some e →
        ∃ api ∈ doc.apis,
          (∃ t ∈ api.tags, doc.tagExists t.content.value = false ∧
            e = newError t.content.range.start t.content.range.stop "content" .errInvalidValue) ∨
          (∃ s ∈ api.servers, doc.serverExists s.content.value = false ∧
            e = newError s.content.range.start s.content.range.stop "content" .errInvalidValue))
    ∧ (∀ n, doc.tagExists n = true ↔ ∃ tg ∈ doc.tags, tg.name.V = n)
    ∧ (∀ n, doc.serverExists n = true ↔ ∃ sv ∈ doc.servers, sv.name.V = n) := by
  refine ⟨?_, ?_, tagExists_iff doc, serverExists_iff doc⟩
  · rw [sanitize_snd_eq, findSome?_isSome_iff]
    constructor
    · rintro ⟨api, hmem, hsome⟩
      exact ⟨api, mem_stableSort.1 hmem, sanitizeTags_isSome_iff.1 hsome⟩
    · rintro ⟨api, hmem, hd⟩
      exact ⟨api, mem_stableSort.2 hmem, sanitizeTags_isSome_iff.2 hd⟩
  · intro e he
    rw [sanitize_snd_eq] at he
    obtain ⟨l₁, api, l₂, hsplit, _, hsome⟩ := findSome?_decomp he
    have hmem : api ∈ stableSort apiLess doc.apis := by
      rw [hsplit]
      simp
    exact ⟨api, mem_stableSort.1 hmem, sanitizeTags_some hsome⟩

/-- C3 witness: in `exDocC3` the reference `ghost` is dangling and the
reported error sits at the reference's own range (lines 5–6), not at
the API's. -/
theorem claim_C3_witness :
    ∃ api ∈ exDocC3.apis,
      (∃ t ∈ api.tags, exDocC3.tagExists t.content.value = false ∧
        newError (mkPos 5) (mkPos 6) "content" .errInvalidValue =
          newError t.content.range.start t.content.range.stop "content" .errInvalidValue) ∨
      (∃ s ∈ api.servers, exDocC3.serverExists s.content.value = false ∧
        newError (mkPos 5) (mkPos 6) "content" .errInvalidValue =
          newError s.content.range.start s.content.range.stop "content" .errInvalidValue) :=
  (claim_C3 exDocC3).2.1 (newError (mkPos 5) (mkPos 6) "content" .errInvalidValue) (by decide)

/-! ### C4: duplicate enum values / item names -/

theorem getDuplicateEnum_isSome (enums : List AEnum) :
    (getDuplicateEnum enums).isSome = (getDupBy (fun e => e.value.V) enums).isSome := by
  rw [getDuplicateEnum]
  cases getDupBy (fun e => e.value.V) enums <;> rfl

theorem getDuplicateItems_isSome (items : List Param) :
    (getDuplicateItems items).isSome = (getDupBy (fun p => p.name.V) items).isSome := by
  rw [getDuplicateItems]
  cases getDupBy (fun p => p.name.V) items <;> rfl

/-- C4: the duplicate scans hit exactly when two enums share a value
string (respectively two items share a name), and the reported range is
the range of the *later* of two same-key occurrences: the element whose
range is returned has an earlier element with the same key in the
original order. -/
theorem claim_C4 :
    (∀ enums : List AEnum,
      ((getDuplicateEnum enums).isSome = true ↔
        ¬ (enums.map (fun e => e.value.V)).Nodup)
      ∧ ∀ rng, getDuplicateEnum enums = some rng →
          ∃ l₁ a l₂ b l₃, enums = l₁ ++ a :: l₂ ++ b :: l₃ ∧
            a.value.V = b.value.V ∧ rng = b.range)
    ∧ (∀ items : List Param,
      ((getDuplicateItems items).isSome = true ↔
        ¬ (items.map (fun p => p.name.V)).Nodup)
      ∧ ∀ rng, getDuplicateItems items = some rng →
          ∃ l₁ a l₂ b l₃, items = l₁ ++ a :: l₂ ++ b :: l₃ ∧
            a.name.V = b.name.V ∧ rng = b.range) := by
  constructor
  · intro enums
    constructor
    · rw [getDuplicateEnum_isSome]
      exact getDupBy_isSome_iff _ _
    · intro rng h
      rw [getDuplicateEnum] at h
      obtain ⟨b, hb, hrng⟩ := Option.map_eq_some'.1 h
      obtain ⟨l₁, a, l₂, l₃, hsplit, hk⟩ := getDupBy_eq_some _ hb
      exact ⟨l₁, a, l₂, b, l₃, hsplit, hk, hrng.symm⟩
  · intro items
    constructor
    · rw [getDuplicateItems_isSome]
      exact getDupBy_isSome_iff _ _
    · intro rng h
      rw [getDuplicateItems] at h
      obtain ⟨b, hb, hrng⟩ := Option.map_eq_some'.1 h
      obtain ⟨l₁, a, l₂, l₃, hsplit, hk⟩ := getDupBy_eq_some _ hb
      exact ⟨l₁, a, l₂, b, l₃, hsplit, hk, hrng.symm⟩

/-- C4 witness: on enums `a`, `b`, `a` the returned range (line 3) is
the range of the later `a`, which has an earlier equal-valued enum. -/
theorem claim_C4_witness :
    ∃ l₁ a l₂ b l₃, exEnumsC4 = l₁ ++ a :: l₂ ++ b :: l₃ ∧
      a.value.V = b.value.V ∧ mkRange 3 3 = b.range :=
  (claim_C4.1 exEnumsC4).2 (mkRange 3 3) (by decide)

/-! ### C5: enum values must fit the field's declared type -/

/-- C5: with a numeric type every enum value must parse as a number,
with a boolean type as a boolean; on an object or absent type any enum
at all is an error; a violating value yields a format error at that
enum's own range (the first violating enum, scanning in order); and the
concrete `number`-typed enum set `1`, `2`, `x` fails on `x`'s range. -/
theorem claim_C5 :
    (∀ (t : Attribute) (enums : List AEnum), t.V = TypeNumber →
      (chkEnumsType t enums = none ↔ ∀ e ∈ enums, isNumber e.value.V = true))
    ∧ (∀ (t : Attribute) (enums : List AEnum), t.V = TypeBool →
      (chkEnumsType t enums = none ↔ ∀ e ∈ enums, (goParseBool e.value.V).isSome = true))
    ∧ (∀ (t : Attribute) (enums : List AEnum), t.V = TypeObject ∨ t.V = TypeNone →
      (chkEnumsType t enums = none ↔ enums = []))
    ∧ (∀ (t : Attribute) (l₁ : List AEnum) (e : AEnum) (l₂ : List AEnum),
      t.V = TypeNumber → (∀ x ∈ l₁, isNumber x.value.V = true) →
      isNumber e.value.V = false →
      chkEnumsType t (l₁ ++ e :: l₂) =
        some (newError e.range.start e.range.stop e.xmlName.value .errInvalidFormat))
    ∧ chkEnumsType exTypeC5 exEnumsC5 =
        some (newError (mkPos 4) (mkPos 4) "enum" .errInvalidFormat) := by
  refine ⟨?_, ?_, ?_, ?_, by decide⟩
  · intro t enums ht
    rw [chkEnumsType, ht]
    cases enums with
    | nil => simp
    | cons e0 rest =>
      rw [if_neg (by simp), if_pos rfl, findSome?_eq_none_iff]
      constructor
      · intro h e he
        by_cases hx : isNumber e.value.V = true
        · exact hx
        · have hc := h e he
          rw [if_neg hx] at hc
          cases hc
      · intro h e he
        rw [if_pos (h e he)]
  · intro t enums ht
    rw [chkEnumsType, ht]
    cases enums with
    | nil => simp
    | cons e0 rest =>
      rw [if_neg (by simp), if_neg (by decide), if_pos rfl, findSome?_eq_none_iff]
      constructor
      · intro h e he
        by_cases hx : (goParseBool e.value.V).isSome = true
        · exact hx
        · have hc := h e he
          rw [if_neg hx] at hc
          cases hc
      · intro h e he
        rw [if_pos (h e he)]
  · intro t enums ht
    cases enums with
    | nil =>
      rw [chkEnumsType]
      simp
    | cons e0 rest =>
      rcases ht with ht | ht <;>
        rw [chkEnumsType, ht] <;>
        rw [if_neg (by simp), if_neg (by decide), if_neg (by decide),
          if_pos (by simp [TypeObject, TypeNone])] <;>
        simp
  · intro t l₁ e l₂ ht hok hbad
    rw [chkEnumsType, ht]
    rw [if_neg (by simp), if_pos rfl]
    refine findSome?_append_some ?_ ?_
    · intro x hx
      rw [if_pos (hok x hx)]
    · rw [if_neg]
      intro hcontra
      rw [hbad] at hcontra
      cases hcontra

/-- C5 witness: instantiating the first-violation clause on the
concrete `number`-typed enums `1`, `2`, `x`. -/
theorem claim_C5_witness :
    chkEnumsType exTypeC5 ([mkEnum 2 "1", mkEnum 3 "2"] ++ mkEnum 4 "x" :: []) =
      some (newError (mkEnum 4 "x").range.start (mkEnum 4 "x").range.stop
        (mkEnum 4 "x").xmlName.value .errInvalidFormat) :=
  claim_C5.2.2.2.1 exTypeC5 [mkEnum 2 "1", mkEnum 3 "2"] (mkEnum 4 "x") []
    rfl (by decide) (by decide)

/-! ### C6: shape rules -/

theorem objHeaderErr_none_iff {field : String} {headers : List Param} :
    objHeaderErr field headers = none ↔ ∀ h ∈ headers, h.ptype.V ≠ TypeObject := by
  rw [objHeaderErr, findSome?_eq_none_iff]
  constructor
  · intro hall h hmem hty
    have hc := hall h hmem
    rw [if_pos hty] at hc
    cases hc
  · intro hall h hmem
    rw [if_neg (hall h hmem)]

theorem objHeaderErr_isSome {field : String} {headers : List Param} {h : Param}
    (hmem : h ∈ headers) (hty : h.ptype.V = TypeObject) :
    (objHeaderErr field headers).isSome = true := by
  rw [objHeaderErr, findSome?_isSome_iff]
  refine ⟨h, hmem, ?_⟩
  rw [if_pos hty]
  rfl

theorem objTypeErr_none_iff {items : List Param} :
    objTypeErr items = none ↔ ∀ i ∈ items, i.ptype.V ≠ TypeObject := by
  rw [objTypeErr, findSome?_eq_none_iff]
  constructor
  · intro hall i hmem hty
    have hc := hall i hmem
    rw [if_pos hty] at hc
    cases hc
  · intro hall i hmem
    rw [if_neg (hall i hmem)]

/-- C6: object-typed request/param bodies without child items yield the
required-error at the node's range; object-typed headers are rejected
(`API.Sanitize` succeeds iff none, and any object header forces an
error); and `Path.Sanitize` succeeds only when no path or query
parameter is object-typed. -/
theorem claim_C6 :
    (∀ r : Request, r.rtype.V = TypeObject → r.items = [] →
      Request.SanitizeF r = some (newError r.range.start r.range.stop "param" .errRequired))
    ∧ (∀ p : Param, p.ptype.V = TypeObject → p.items = [] →
      Param.SanitizeF p = some (newError p.range.start p.range.stop "param" .errRequired))
    ∧ (∀ api : API, API.SanitizeDeep api = none ↔
        ∀ h ∈ api.headers, h.ptype.V ≠ TypeObject)
    ∧ (∀ (api : API) (h : Param), h ∈ api.headers → h.ptype.V = TypeObject →
        (API.SanitizeDeep api).isSome = true)
    ∧ (∀ r : Request, Request.SanitizeF r = none →
        (∀ h ∈ r.headers, h.ptype.V ≠ TypeObject) ∧
        ¬ (r.rtype.V = TypeObject ∧ r.items = []))
    ∧ (∀ pth : APath, APath.SanitizeF pth = none →
        (∀ prm ∈ pth.params, prm.ptype.V ≠ TypeObject) ∧
        (∀ q ∈ pth.queries, q.ptype.V ≠ TypeObject)) := by
  refine ⟨?_, ?_, ?_, ?_, ?_, ?_⟩
  · intro r hty hitems
    rw [Request.SanitizeF, if_pos ⟨hty, by rw [hitems]; rfl⟩]
  · intro p hty hitems
    rw [Param.SanitizeF, if_neg (by rw [hty]; decide),
      if_pos ⟨hty, by rw [hitems]; rfl⟩]
  · intro api
    rw [API.SanitizeDeep]
    exact objHeaderErr_none_iff
  · intro api h hmem hty
    rw [API.SanitizeDeep]
    exact objHeaderErr_isSome hmem hty
  · intro r hnone
    rw [Request.SanitizeF] at hnone
    by_cases hc : r.rtype.V = TypeObject ∧ r.items.isEmpty = true
    · rw [if_pos hc] at hnone
      cases hnone
    · rw [if_neg hc] at hnone
      rw [firstErr_none_iff, firstErr_none_iff, firstErr_none_iff,
        firstErr_none_iff, firstErr_none_iff] at hnone
      refine ⟨objHeaderErr_none_iff.1 hnone.2.2.2.2.1, ?_⟩
      intro ⟨h1, h2⟩
      exact hc ⟨h1, by rw [h2]; rfl⟩
  · intro pth hnone
    rw [APath.SanitizeF] at hnone
    cases hp : parsePath pth.path.V with
    | none =>
      rw [hp] at hnone
      cases hnone
    | some ps =>
      rw [hp] at hnone
      have hnone2 : (if ps.length ≠ pth.params.length then
          some (newError pth.range.start pth.range.stop "path" MsgKey.errPathNotMatchParams)
        else firstErr (pathNamesErr ps pth.params)
          (firstErr (objTypeErr pth.params) (objTypeErr pth.queries))) = none := hnone
      by_cases hl : ps.length ≠ pth.params.length
      · rw [if_pos hl] at hnone2
        cases hnone2
      · rw [if_neg hl] at hnone2
        rw [firstErr_none_iff, firstErr_none_iff] at hnone2
        exact ⟨objTypeErr_none_iff.1 hnone2.2.1, objTypeErr_none_iff.1 hnone2.2.2⟩

/-- C6 witness: the object-typed request body with no items is rejected
with a required-error at its own range, and a document path with an
object-typed query parameter never sanitizes cleanly. -/
theorem claim_C6_witness :
    Request.SanitizeF exReqC6 = some (newError (mkPos 7) (mkPos 8) "param" .errRequired) :=
  claim_C6.1 exReqC6 rfl rfl

/-! ### C8: failure semantics of the sanitizer -/

/-- C8 counterexample: in a document whose two APIs (sorted: `/a` then
`/b`) both carry dangling tag references, `Sanitize` returns exactly
the first API's error even though the second API also has a violation
with a different error — it stops at the first violating API instead of
accumulating across APIs. -/
theorem claim_C8_counterexample :
    (APIDoc.Sanitize exDocC8).2 = some (newError (mkPos 1) (mkPos 2) "content" .errInvalidValue)
    ∧ API.sanitizeTags exDocC8 exApiC8b = some (newError (mkPos 2) (mkPos 3) "content" .errInvalidValue)
    ∧ newError (mkPos 1) (mkPos 2) "content" .errInvalidValue ≠
        newError (mkPos 2) (mkPos 3) "content" .errInvalidValue := by
  refine ⟨by decide, by decide, by decide⟩

/-- C8 (amended): fail-fast at both levels.  Document-level `Sanitize`
returns the error of the first violating API in sorted order — every
earlier API checks clean and no further API is reported; and within one
node's deep checks the first violation wins (a type-less param is
reported as missing-type even if it has further violations). -/
theorem claim_C8 :
    (∀ (doc : APIDoc) (e : SError), (APIDoc.Sanitize doc).2 = some e →
      ∃ l₁ api l₂, stableSort apiLess doc.apis = l₁ ++ api :: l₂ ∧
        (∀ a ∈ l₁, API.sanitizeTags doc a = none) ∧
        API.sanitizeTags doc api = some e)
    ∧ (∀ p : Param, p.ptype.V = TypeNone →
        Param.SanitizeF p = some (newError p.range.start p.range.stop "type" .errRequired)) := by
  constructor
  · intro doc e he
    rw [sanitize_snd_eq] at he
    exact findSome?_decomp he
  · intro p hty
    rw [Param.SanitizeF, if_pos hty]

/-- C8 witness: instantiating both clauses — on the two-violation
document the returned error is the first API's, and a type-less param
gets the missing-type error. -/
theorem claim_C8_witness :
    (∃ l₁ api l₂, stableSort apiLess exDocC8.apis = l₁ ++ api :: l₂ ∧
      (∀ a ∈ l₁, API.sanitizeTags exDocC8 a = none) ∧
      API.sanitizeTags exDocC8 api =
        some (newError (mkPos 1) (mkPos 2) "content" .errInvalidValue))
    ∧ Param.SanitizeF (mkParam 9 "x" "") =
        some (newError (mkPos 9) (mkPos 9) "type" .errRequired) :=
  ⟨claim_C8.1 exDocC8 _ (by decide), claim_C8.2 (mkParam 9 "x" "") rfl⟩

/-! ### C9: unterminated line-anchored blocks -/

theorem findEndLine_none_iff (endLine : String) :
    ∀ lines : List String, findEndLine endLine lines = none ↔ ∀ l ∈ lines, l ≠ endLine := by
  intro lines
  induction lines with
  | nil => simp [findEndLine]
  | cons l rest ih =>
    rw [findEndLine]
    by_cases h : l = endLine
    · simp [h]
    · simp only [h, if_false, Option.map_eq_none']
      simp [h, ih]

/-- C9: when the end delimiter line never occurs, `EndFunc` reports
not-found (`(nil, nil, false)`); the extraction loop then yields no
block and no file-level error from that point; and on a concrete file
with one complete block followed by an unterminated one, extraction
returns exactly the first block and an empty error list. -/
theorem claim_C9 :
    (∀ (b : RubyBlocker) (rest : List String),
      b.endFunc rest = none ↔ ∀ l ∈ rest, l ≠ b.rubyEnd)
    ∧ (∀ (b : RubyBlocker) (rest acc : List String),
      (∀ l ∈ rest, l ≠ b.rubyEnd) → rubyScan b rest (some acc) = ([], []))
    ∧ extractRuby rubyBlk exLinesC9 = ([["=begin", "a", "=end"]], []) := by
  refine ⟨?_, ?_, by decide⟩
  · intro b rest
    rw [RubyBlocker.endFunc]
    cases hf : findEndLine b.rubyEnd rest with
    | none =>
      constructor
      · intro _
        exact (findEndLine_none_iff b.rubyEnd rest).1 hf
      · intro _
        rfl
    | some k =>
      constructor
      · intro hc
        cases hc
      · intro hall
        rw [(findEndLine_none_iff b.rubyEnd rest).2 hall] at hf
        cases hf
  · intro b rest
    induction rest with
    | nil =>
      intro acc _
      rfl
    | cons l rest ih =>
      intro acc hall
      rw [rubyScan, if_neg (hall l (by simp))]
      exact ih _ fun x hx => hall x (by simp [hx])

/-- C9 witness: a begin line followed only by non-delimiter lines:
`EndFunc` reports not-found and the scan yields no block, no error. -/
theorem claim_C9_witness :
    (rubyBlk.endFunc ["b", "c"] = none ↔ ∀ l ∈ ["b", "c"], l ≠ rubyBlk.rubyEnd)
    ∧ rubyScan rubyBlk ["b", "c"] (some ["=begin"]) = ([], []) :=
  ⟨claim_C9.1 rubyBlk ["b", "c"],
    claim_C9.2.1 rubyBlk ["b", "c"] ["=begin"] (by decide)⟩

end Apidoc
